import Mathlib

/-!
Verification development for the Physics-Momentum trading bot
(`analysis.js` = src/unnamed/part_000, `index.js` = src/index.js).

Shallow embedding conventions:
* JavaScript numbers are modelled as rationals (`ℚ`); the presentation-layer
  decimal re-rounding `parseFloat(x.toFixed(k))` is elided (it formats values
  for output and does not change the arithmetic relationships under study).
* JavaScript `NaN` sentinels in the indicator arrays are modelled as `none`
  in `Option ℚ`; indicator arrays are `List (Option ℚ)` index-aligned with
  the input.
* Division by zero follows the `ℚ` convention `x / 0 = 0` where JavaScript
  would produce `NaN`; at every place where this matters it is noted.
* `Math.round` is `jsRound` below (round half toward +infinity, which is the
  JavaScript semantics).
-/

namespace BotTrading

/-- Common normalized candle shape `{ t, open, high, low, close, vol }`
produced by `loadCandles` (`open` is a Lean keyword, hence `open_`). -/
structure Candle where
  t : ℤ
  open_ : ℚ
  high : ℚ
  low : ℚ
  close : ℚ
  vol : ℚ
deriving DecidableEq, Repr

/-- Trade direction, the strings `'LONG'` / `'SHORT'` of the source. -/
inductive Side
  | LONG
  | SHORT
deriving DecidableEq, Repr

/-- The object returned by `analyzeSymbol` when a signal is detected
(fields `symbol` and `meta` omitted: no claim mentions them). -/
structure SignalCandidate where
  side : Side
  entry : ℚ
  sl : ℚ
  tp : ℚ
  rr : ℚ
  confidence : ℤ
deriving DecidableEq, Repr

/-- JavaScript `Math.round`: round half up. -/
def jsRound (q : ℚ) : ℤ := ⌊q + 1 / 2⌋

/-- JavaScript `Math.abs`. -/
def jsAbs (q : ℚ) : ℚ := if q < 0 then -q else q

/-- Entry rules of `analyzeSymbol` (analysis.js lines 246-249):
`LONG` if `rsi < 30 && close < lowerBB && acc > 0`,
`SHORT` if `rsi > 70 && close > upperBB && acc < 0`, else none. -/
def entrySide (rsi close lowerBB upperBB acc : ℚ) : Option Side :=
  if rsi < 30 ∧ close < lowerBB ∧ 0 < acc then some Side.LONG
  else if 70 < rsi ∧ upperBB < close ∧ acc < 0 then some Side.SHORT
  else none

/-- Body of `analyzeSymbol` after a side is chosen (analysis.js lines 251-271):
stop/target at 1.5x / 3x ATR from entry, `rr = |tp-entry|/|entry-sl|`,
`confidence = Math.round(Math.min(100, 60 + Math.min(35, Math.max(0,
(Math.abs(acc) / (Math.abs(atr) || 1)) * 10))))`.
JavaScript `x || 1` on a nonnegative number means `if x = 0 then 1 else x`. -/
def buildCandidate (side : Side) (close atr acc : ℚ) : SignalCandidate :=
  let entry := close
  let sl := match side with
    | Side.LONG => entry - 1.5 * atr
    | Side.SHORT => entry + 1.5 * atr
  let tp := match side with
    | Side.LONG => entry + 3 * atr
    | Side.SHORT => entry - 3 * atr
  let rr := jsAbs (tp - entry) / jsAbs (entry - sl)
  let confidence := 60 + min 35 (max 0 ((jsAbs acc / (if jsAbs atr = 0 then 1 else jsAbs atr)) * 10))
  { side := side, entry := entry, sl := sl, tp := tp, rr := rr
    confidence := jsRound (min 100 confidence) }

/-- The decision stage of `analyzeSymbol` (analysis.js lines 241-280), taken at
the latest index once every required indicator value is defined (non-NaN):
returns `none` when no entry rule fires, else the built candidate. -/
def analyzeCore (rsi close lowerBB upperBB acc atr : ℚ) : Option SignalCandidate :=
  (entrySide rsi close lowerBB upperBB acc).map fun side => buildCandidate side close atr acc

/-- The confidence formula exactly as C7 and the spec word it: bonus scaled
with factor 10 from `|acceleration| / max(|ATR|, 1)`.  (The code instead
divides by `(Math.abs(atr) || 1)`, i.e. by `|ATR|` itself whenever it is
nonzero.)  Stated with `jsAbs`, which provably equals `|·|`. -/
def specConfidence (acc atr : ℚ) : ℤ :=
  jsRound (min 100 (60 + min 35 (max 0 (10 * jsAbs acc / max (jsAbs atr) 1))))

/-- The orchestrator's acceptance filter `res.confidence >= 60`
(index.js line 295). -/
def confidenceFilter (confidence : ℤ) : Bool := decide (60 ≤ confidence)

/-- Resolution statuses `'TP'` / `'SL'` of `checkSignalHit`. -/
inductive Hit
  | TP
  | SL
deriving DecidableEq, Repr

/-- The scan loop of `checkSignalHit` (analysis.js lines 297-324): oldest
candle first, carrying the running index `idx`; LONG: TP touched iff
`high >= tp`, SL touched iff `low <= sl`; SHORT: TP touched iff `low <= tp`,
SL touched iff `high >= sl`; one touch resolves immediately, a double touch
is tie-broken by the candle's close, no touch moves to the next candle. -/
def scanHitAux (side : Side) (sl tp : ℚ) : ℕ → List Candle → Option (Hit × ℕ)
  | _, [] => none
  | idx, c :: rest =>
    match side with
    | Side.LONG =>
      if tp ≤ c.high ∧ ¬c.low ≤ sl then some (Hit.TP, idx)
      else if c.low ≤ sl ∧ ¬tp ≤ c.high then some (Hit.SL, idx)
      else if tp ≤ c.high ∧ c.low ≤ sl then
        if tp ≤ c.close then some (Hit.TP, idx) else some (Hit.SL, idx)
      else scanHitAux side sl tp (idx + 1) rest
    | Side.SHORT =>
      if c.low ≤ tp ∧ ¬sl ≤ c.high then some (Hit.TP, idx)
      else if sl ≤ c.high ∧ ¬c.low ≤ tp then some (Hit.SL, idx)
      else if c.low ≤ tp ∧ sl ≤ c.high then
        if c.close ≤ tp then some (Hit.TP, idx) else some (Hit.SL, idx)
      else scanHitAux side sl tp (idx + 1) rest

/-- Model of `checkSignalHit` on an already-fetched 1-minute candle window
(analysis.js lines 289-331): `none` models the `{ status: null }` result. -/
def checkSignalHit (side : Side) (sl tp : ℚ) (candles : List Candle) : Option (Hit × ℕ) :=
  scanHitAux side sl tp 0 candles

/-- C3's touch condition, as the claim words it: the candle touches either
bound. -/
def specTouched (side : Side) (sl tp : ℚ) (c : Candle) : Prop :=
  match side with
  | Side.LONG => tp ≤ c.high ∨ c.low ≤ sl
  | Side.SHORT => c.low ≤ tp ∨ sl ≤ c.high

instance (side : Side) (sl tp : ℚ) (c : Candle) : Decidable (specTouched side sl tp c) := by
  unfold specTouched
  cases side <;> exact inferInstance

/-- C3's per-candle resolution rule, as the claim words it: when exactly one
bound is touched that bound resolves; when both are touched the close breaks
the tie (LONG: TP iff `close >= takeProfit`; SHORT: TP iff
`close <= takeProfit`). -/
def specResolveAt (side : Side) (sl tp : ℚ) (c : Candle) : Hit :=
  match side with
  | Side.LONG =>
    if tp ≤ c.high ∧ ¬c.low ≤ sl then Hit.TP
    else if c.low ≤ sl ∧ ¬tp ≤ c.high then Hit.SL
    else if tp ≤ c.close then Hit.TP else Hit.SL
  | Side.SHORT =>
    if c.low ≤ tp ∧ ¬sl ≤ c.high then Hit.TP
    else if sl ≤ c.high ∧ ¬c.low ≤ tp then Hit.SL
    else if c.close ≤ tp then Hit.TP else Hit.SL

/-- Signal lifecycle statuses of index.js (`'OPEN' / 'TP' / 'SL' / 'EXPIRED'`,
plus `'PENDING'` which `isDuplicateSignal` also accepts). -/
inductive SigStatus
  | OPEN
  | PENDING
  | TP
  | SL
  | EXPIRED
deriving DecidableEq, Repr

/-- The mutable per-signal monitor state touched by one tick of
`startMonitoringSignal`. -/
structure MonSignal where
  status : SigStatus
  monitorChecks : ℕ
  monitorHistory : List (Option Hit)
deriving DecidableEq, Repr

/-- One tick of `startMonitoringSignal` (index.js lines 205-268) as a state
transition.  `hit` is the `status` field of the awaited
`analysis.checkSignalHit` result: `checkSignalHit` catches every error of the
candle fetch internally and returns `{ status: null }` (analysis.js lines
327-330), so a failed fetch reaches the tick as `hit = none`, exactly like a
window with no touch.  The tick increments `monitorChecks` (line 213)
*before* the check result is inspected, appends to `monitorHistory`, resolves
on TP/SL, and expires when the incremented count reaches `maxChecks`. -/
def monitorTick (maxChecks : ℕ) (hit : Option Hit) (s : MonSignal) : MonSignal :=
  if s.status ≠ SigStatus.OPEN then s
  else
    let s1 : MonSignal :=
      { s with monitorChecks := s.monitorChecks + 1
               monitorHistory := s.monitorHistory ++ [hit] }
    match hit with
    | some Hit.TP => { s1 with status := SigStatus.TP }
    | some Hit.SL => { s1 with status := SigStatus.SL }
    | none =>
      if maxChecks ≤ s1.monitorChecks then { s1 with status := SigStatus.EXPIRED }
      else s1

/-- An entry of the in-memory `activeSignals` collection, restricted to the
fields `isDuplicateSignal` reads; `createdAt` is in milliseconds
(`new Date(s.createdAt).getTime()`). -/
structure ActiveSignal where
  symbol : String
  side : Side
  createdAt : ℤ
  status : SigStatus
deriving DecidableEq, Repr

/-- Model of `isDuplicateSignal` (index.js lines 152-165): scans `activeSignals` for a
signal with the same symbol and side, created within
`windowMinutes * 60 * 1000` ms of `now`, whose status is OPEN or PENDING. -/
def isDuplicateSignal (activeSignals : List ActiveSignal) (now : ℤ)
    (symbol : String) (side : Side) (windowMinutes : ℤ) : Bool :=
  activeSignals.any fun s =>
    s.symbol == symbol && s.side == side &&
    decide (now - s.createdAt ≤ windowMinutes * 60 * 1000) &&
    (s.status == SigStatus.OPEN || s.status == SigStatus.PENDING)

/-- Model of `sma(values, period)` (analysis.js lines 155-164): output index-aligned
with `values`, `NaN` (`none`) before index `period - 1`, and from there the
running-window sum `values[i+1-period .. i]` divided by `period`.  (The
source's `|| 0` coercions only matter for `NaN` inputs, which never occur at
its call sites: `priceChange` and `closes` are plain numbers.) -/
def sma (values : List ℚ) (period : ℕ) : List (Option ℚ) :=
  (List.range values.length).map fun i =>
    if period - 1 ≤ i then some (((values.drop (i + 1 - period)).take period).sum / period)
    else none

/-- The `priceChange` array of `analyzeSymbol` (analysis.js lines 220-221):
pre-filled with the numeric placeholder `0`, then `closes[i] - closes[i-1]`
for `i ≥ 1`; index 0 keeps the numeric `0`, not a `NaN` sentinel. -/
def priceChange (closes : List ℚ) : List ℚ :=
  (List.range closes.length).map fun i =>
    if i = 0 then 0 else closes.getD i 0 - closes.getD (i - 1) 0

/-- Velocity `v = SMA(V_SMA)` of `priceChange` with `V_SMA = 3`
(analysis.js lines 37, 222). -/
def vArr (closes : List ℚ) : List (Option ℚ) := sma (priceChange closes) 3

/-- Acceleration `a[i] = v[i] - v[i-1]` whenever both neighbours are defined,
`NaN` elsewhere and at index 0 (analysis.js lines 225-228). -/
def aArr (v : List (Option ℚ)) : List (Option ℚ) :=
  (List.range v.length).map fun i =>
    if i = 0 then none
    else
      match v[i - 1]?, v[i]? with
      | some (some a), some (some b) => some (b - a)
      | _, _ => none

/-- The `deltas` array of `rsiFromCloses` (analysis.js lines 131-132):
`deltas[j] = closes[j+1] - closes[j]`. -/
def deltas (closes : List ℚ) : List ℚ :=
  List.zipWith (fun a b => a - b) closes.tail closes

/-- The `(avgGain, avgLoss)` accumulator of `rsiFromCloses` after `k`
Wilder-smoothing steps past the seed (analysis.js lines 134-148): the seed
is the simple mean of the positive parts (respectively `Math.abs` of the
non-positive parts) of the first `length` deltas; step `k` consumes
`deltas[length + k - 1]` with
`avg = (avg * (length - 1) + value) / length`. -/
def avgsAt (ds : List ℚ) (length : ℕ) : ℕ → ℚ × ℚ
  | 0 =>
    (((ds.take length).map fun d => if 0 < d then d else 0).sum / length,
     ((ds.take length).map fun d => if 0 < d then 0 else jsAbs d).sum / length)
  | k + 1 =>
    let p := avgsAt ds length k
    let d := ds.getD (length + k) 0
    let gain := if 0 < d then d else 0
    let loss := if d < 0 then jsAbs d else 0
    ((p.1 * ((length : ℚ) - 1) + gain) / length,
     (p.2 * ((length : ℚ) - 1) + loss) / length)

/-- The `rs` value from a smoothed pair (analysis.js lines 141, 149):
`rs = avgLoss === 0 ? 100 : avgGain / avgLoss`. -/
def rsFrom (g l : ℚ) : ℚ := if l = 0 then 100 else g / l

/-- An RSI entry `100 - 100 / (1 + rs)` (analysis.js lines 142, 150). -/
def rsiVal (g l : ℚ) : ℚ := 100 - 100 / (1 + rsFrom g l)

/-- Model of `rsiFromCloses(closes, length)` (analysis.js lines 126-153): all-NaN when
fewer than `length + 1` closes exist; otherwise NaN strictly before index
`length` and from index `length` on, the RSI of the Wilder-smoothed
accumulator (`avgsAt` above is the loop's carried state). -/
def rsiFromCloses (closes : List ℚ) (length : ℕ) : List (Option ℚ) :=
  if closes.length < length + 1 then List.replicate closes.length none
  else
    (List.range closes.length).map fun i =>
      if i < length then none
      else some (rsiVal (avgsAt (deltas closes) length (i - length)).1
        (avgsAt (deltas closes) length (i - length)).2)

/-- A 15-close strictly increasing series: the minimal fixture on which
RSI(14) is defined, with every delta a gain. -/
def risingCloses : List ℚ := [1, 2, 3, 4, 5, 6, 7, 8, 9, 10, 11, 12, 13, 14, 15]

/-- A record of a Bybit kline response (`result.list` entry), which may be
array-encoded `[t, open, high, low, close, vol]` or object-encoded with keyed
fields (analysis.js lines 71-93); numeric fields are modelled after
`parseInt`/`parseFloat`, with the source's `||` fallback chains already
resolved to the value used. -/
inductive BybitItem
  | arr (t : ℤ) (o h l c v : ℚ)
  | obj (t : ℤ) (o h l c v : ℚ)
deriving DecidableEq, Repr

/-- The per-record mapping of the Bybit branch of `loadCandles`: both
encodings land in the common candle shape. -/
def bybitToCandle : BybitItem → Candle
  | BybitItem.arr t o h l c v => ⟨t, o, h, l, c, v⟩
  | BybitItem.obj t o h l c v => ⟨t, o, h, l, c, v⟩

/-- The Bybit branch of `loadCandles` (analysis.js lines 65-95): map every
record, then `.sort((a, b) => a.t - b.t)` — a stable ascending sort by open
time, modelled by insertion sort. -/
def normalizeBybit (list : List BybitItem) : List Candle :=
  List.insertionSort (fun a b => a.t ≤ b.t) (list.map bybitToCandle)

/-- A row of a Binance-style klines response
`[openTime, open, high, low, close, volume, ...]` (fields beyond the sixth
are ignored by the mapping), numeric fields post-parse. -/
structure BinanceRow where
  t : ℤ
  o : ℚ
  h : ℚ
  l : ℚ
  c : ℚ
  v : ℚ
deriving DecidableEq, Repr

/-- The Binance branch of `loadCandles` (analysis.js lines 96-107): a plain
per-row map into the candle shape — no re-sort and no truncation. -/
def normalizeBinance (raw : List BinanceRow) : List Candle :=
  raw.map fun r => ⟨r.t, r.o, r.h, r.l, r.c, r.v⟩

instance : IsTotal Candle (fun a b => a.t ≤ b.t) :=
  ⟨fun a b => le_total a.t b.t⟩

instance : IsTrans Candle (fun a b => a.t ≤ b.t) :=
  ⟨fun _ _ _ hab hbc => le_trans hab hbc⟩

/-! ### Theorems -/

theorem jsAbs_eq_abs (q : ℚ) : jsAbs q = |q| := by
  unfold jsAbs
  rcases lt_or_le q 0 with h | h
  · rw [if_pos h, abs_of_neg h]
  · rw [if_neg (not_lt.mpr h), abs_of_nonneg h]

theorem buildCandidate_side (side : Side) (close atr acc : ℚ) :
    (buildCandidate side close atr acc).side = side := rfl

theorem analyzeCore_map_side (rsi close lowerBB upperBB acc atr : ℚ) :
    (analyzeCore rsi close lowerBB upperBB acc atr).map SignalCandidate.side
      = entrySide rsi close lowerBB upperBB acc := by
  unfold analyzeCore
  cases h : entrySide rsi close lowerBB upperBB acc <;>
    simp [h, buildCandidate_side]

theorem analyzeCore_eq_none (rsi close lowerBB upperBB acc atr : ℚ) :
    analyzeCore rsi close lowerBB upperBB acc atr = none ↔
      entrySide rsi close lowerBB upperBB acc = none := by
  unfold analyzeCore
  exact Option.map_eq_none'

theorem entrySide_long_iff (rsi close lowerBB upperBB acc : ℚ) :
    entrySide rsi close lowerBB upperBB acc = some Side.LONG ↔
      rsi < 30 ∧ close < lowerBB ∧ 0 < acc := by
  unfold entrySide
  split_ifs with h1 h2 <;> simp_all

theorem entrySide_short_iff (rsi close lowerBB upperBB acc : ℚ) :
    entrySide rsi close lowerBB upperBB acc = some Side.SHORT ↔
      70 < rsi ∧ upperBB < close ∧ acc < 0 := by
  unfold entrySide
  split_ifs with h1 h2 <;> simp_all
  intro h70 _
  linarith [h1.1]

theorem entrySide_none_iff (rsi close lowerBB upperBB acc : ℚ) :
    entrySide rsi close lowerBB upperBB acc = none ↔
      ¬(rsi < 30 ∧ close < lowerBB ∧ 0 < acc) ∧
      ¬(70 < rsi ∧ upperBB < close ∧ acc < 0) := by
  unfold entrySide
  split_ifs with h1 h2 <;> simp_all

/-- C1: with all indicators defined at the latest index, `analyzeSymbol`
returns side LONG iff `rsi < 30 ∧ close < lowerBand ∧ acceleration > 0`,
SHORT iff `rsi > 70 ∧ close > upperBand ∧ acceleration < 0`, and none
otherwise; and mutating any single one of the three conditions of a firing
rule to violate its threshold, holding the other two fixed, flips the
result to none. -/
theorem analyzeSymbol_entry_rules :
    (∀ rsi close lowerBB upperBB acc atr : ℚ,
      ((analyzeCore rsi close lowerBB upperBB acc atr).map SignalCandidate.side
          = some Side.LONG ↔ rsi < 30 ∧ close < lowerBB ∧ 0 < acc) ∧
      ((analyzeCore rsi close lowerBB upperBB acc atr).map SignalCandidate.side
          = some Side.SHORT ↔ 70 < rsi ∧ upperBB < close ∧ acc < 0) ∧
      (analyzeCore rsi close lowerBB upperBB acc atr = none ↔
          ¬(rsi < 30 ∧ close < lowerBB ∧ 0 < acc) ∧
          ¬(70 < rsi ∧ upperBB < close ∧ acc < 0))) ∧
    (∀ rsi close lowerBB upperBB acc atr : ℚ,
      rsi < 30 → close < lowerBB → 0 < acc →
      (∀ rsi', ¬rsi' < 30 → analyzeCore rsi' close lowerBB upperBB acc atr = none) ∧
      (∀ close', ¬close' < lowerBB → analyzeCore rsi close' lowerBB upperBB acc atr = none) ∧
      (∀ acc', ¬0 < acc' → analyzeCore rsi close lowerBB upperBB acc' atr = none)) ∧
    (∀ rsi close lowerBB upperBB acc atr : ℚ,
      70 < rsi → upperBB < close → acc < 0 →
      (∀ rsi', ¬70 < rsi' → analyzeCore rsi' close lowerBB upperBB acc atr = none) ∧
      (∀ close', ¬upperBB < close' → analyzeCore rsi close' lowerBB upperBB acc atr = none) ∧
      (∀ acc', ¬acc' < 0 → analyzeCore rsi close lowerBB upperBB acc' atr = none)) := by
  refine ⟨fun rsi close lowerBB upperBB acc atr => ⟨?_, ?_, ?_⟩,
          fun rsi close lowerBB upperBB acc atr h30 hlo hacc => ⟨?_, ?_, ?_⟩,
          fun rsi close lowerBB upperBB acc atr h70 hup hacc => ⟨?_, ?_, ?_⟩⟩
  · rw [analyzeCore_map_side]; exact entrySide_long_iff ..
  · rw [analyzeCore_map_side]; exact entrySide_short_iff ..
  · rw [analyzeCore_eq_none]; exact entrySide_none_iff ..
  · intro rsi' h
    rw [analyzeCore_eq_none, entrySide_none_iff]
    exact ⟨fun hc => h hc.1, fun hc => absurd hacc (by linarith [hc.2.2])⟩
  · intro close' h
    rw [analyzeCore_eq_none, entrySide_none_iff]
    exact ⟨fun hc => h hc.2.1, fun hc => absurd h30 (by linarith [hc.1])⟩
  · intro acc' h
    rw [analyzeCore_eq_none, entrySide_none_iff]
    exact ⟨fun hc => h hc.2.2, fun hc => absurd h30 (by linarith [hc.1])⟩
  · intro rsi' h
    rw [analyzeCore_eq_none, entrySide_none_iff]
    exact ⟨fun hc => absurd hacc (by linarith [hc.2.2]), fun hc => h hc.1⟩
  · intro close' h
    rw [analyzeCore_eq_none, entrySide_none_iff]
    exact ⟨fun hc => absurd hacc (by linarith [hc.2.2]), fun hc => h hc.2.1⟩
  · intro acc' h
    rw [analyzeCore_eq_none, entrySide_none_iff]
    exact ⟨fun hc => absurd h70 (by linarith [hc.1]), fun hc => h hc.2.2⟩

/-- Witness for C1 at the concrete LONG scenario of the spec and one
single-condition mutation of it. -/
theorem analyzeSymbol_entry_rules_w :
    (analyzeCore 25 95 98 105 (3/10) 2).map SignalCandidate.side = some Side.LONG ∧
    analyzeCore 35 95 98 105 (3/10) 2 = none := by
  refine ⟨(analyzeSymbol_entry_rules.1 25 95 98 105 (3/10) 2).1.mpr (by norm_num), ?_⟩
  exact (analyzeSymbol_entry_rules.2.1 25 95 98 105 (3/10) 2 (by norm_num) (by norm_num)
    (by norm_num)).1 35 (by norm_num)

/-- Counterexample to C2 as stated: with ATR = 0 (a defined, non-NaN value
that passes the guard of `analyzeSymbol`) the LONG rule still fires, stop and
target coincide with the entry, and the recomputed risk-reward is the
degenerate `0/0` — `0` under the `ℚ` convention, `NaN` in JavaScript — in
either case not `2.0`. -/
theorem analyzeCore_rr_cex :
    (analyzeCore 25 95 98 105 (3/10) 0).map SignalCandidate.rr = some 0 ∧
    (0 : ℚ) ≠ 2 := by
  constructor
  · norm_num [analyzeCore, entrySide, buildCandidate, jsAbs]
  · norm_num

/-- C2 (amended): whenever `analyzeSymbol` returns a candidate, its entry is
the latest close, LONG has `sl = entry - 1.5*ATR`, `tp = entry + 3*ATR`,
SHORT mirrored, and — provided ATR is nonzero — the recomputed
`rr = |tp - entry| / |entry - sl|` equals exactly 2; in particular
RSI=25, close=95, lowerBand=98 (upperBand=105), acceleration=3/10, ATR=2
yields side=LONG, entry=95, sl=92, tp=101, rr=2 (confidence 62). -/
theorem analyzeCore_levels :
    (∀ rsi close lowerBB upperBB acc atr : ℚ, ∀ cand,
        analyzeCore rsi close lowerBB upperBB acc atr = some cand →
        cand.entry = close ∧
        (cand.side = Side.LONG → cand.sl = close - 1.5 * atr ∧ cand.tp = close + 3 * atr) ∧
        (cand.side = Side.SHORT → cand.sl = close + 1.5 * atr ∧ cand.tp = close - 3 * atr) ∧
        (atr ≠ 0 → cand.rr = 2)) ∧
    analyzeCore 25 95 98 105 (3/10) 2 = some ⟨Side.LONG, 95, 92, 101, 2, 62⟩ := by
  constructor
  · intro rsi close lowerBB upperBB acc atr cand h
    unfold analyzeCore at h
    rcases Option.map_eq_some'.mp h with ⟨s, -, rfl⟩
    have habs : atr ≠ 0 → |atr| ≠ 0 := fun h0 => abs_ne_zero.mpr h0
    cases s <;>
      refine ⟨rfl, ?_, ?_, ?_⟩ <;>
      simp only [buildCandidate, buildCandidate_side, jsAbs_eq_abs] <;>
      intro h0 <;>
      first
        | exact ⟨trivial, trivial⟩
        | cases h0
        | · have h1 : |close + 3 * atr - close| = 3 * |atr| := by
              rw [show close + 3 * atr - close = 3 * atr by ring, abs_mul]
              norm_num
            have h2 : |close - (close - 1.5 * atr)| = 1.5 * |atr| := by
              rw [show close - (close - 1.5 * atr) = 1.5 * atr by ring, abs_mul]
              norm_num
            rw [h1, h2]
            field_simp [habs h0]
            ring
        | · have h1 : |close - 3 * atr - close| = 3 * |atr| := by
              rw [show close - 3 * atr - close = (-3) * atr by ring, abs_mul]
              norm_num
            have h2 : |close - (close + 1.5 * atr)| = 1.5 * |atr| := by
              rw [show close - (close + 1.5 * atr) = (-1.5) * atr by ring, abs_mul]
              norm_num
            rw [h1, h2]
            field_simp [habs h0]
            ring
  · norm_num [analyzeCore, entrySide, buildCandidate, jsRound, jsAbs, min_def, max_def]

/-- Witness for C2 (amended) at the spec's concrete scenario. -/
theorem analyzeCore_levels_w :
    (⟨Side.LONG, 95, 92, 101, 2, 62⟩ : SignalCandidate).entry = 95 ∧
    (⟨Side.LONG, 95, 92, 101, 2, 62⟩ : SignalCandidate).rr = 2 := by
  have h := analyzeCore_levels.1 25 95 98 105 (3/10) 2 ⟨Side.LONG, 95, 92, 101, 2, 62⟩
    analyzeCore_levels.2
  exact ⟨h.1, h.2.2.2 (by norm_num)⟩

/-- Counterexample to C7 as stated: at acceleration 1/10 and ATR 1/2 the code
divides the bonus by `|ATR| = 1/2` (bonus 2, confidence 62), while the claim's
`max(|ATR|, 1)` denominator gives bonus 1 (confidence 61). -/
theorem analyzeCore_confidence_cex :
    (analyzeCore 25 95 98 105 (1/10) (1/2)).map SignalCandidate.confidence = some 62 ∧
    specConfidence (1/10) (1/2) = 61 ∧ (62 : ℤ) ≠ 61 := by
  refine ⟨?_, ?_, by norm_num⟩
  · norm_num [analyzeCore, entrySide, buildCandidate, jsRound, jsAbs, min_def, max_def]
  · norm_num [specConfidence, jsRound, jsAbs, min_def, max_def]

/-- C7 (amended): whenever `analyzeSymbol` returns a candidate, its confidence
is base 60 plus a bonus of up to 35 scaled with factor 10 from
`|acceleration| / d`, where the denominator `d` is `|ATR|` itself when ATR is
nonzero and `1` when ATR is zero, capped at 100 and rounded to an integer:
`confidence = round(min(100, 60 + min(35, max(0, 10*|acc| / (if ATR = 0 then 1 else |ATR|)))))`. -/
theorem analyzeCore_confidence :
    ∀ rsi close lowerBB upperBB acc atr : ℚ, ∀ cand,
      analyzeCore rsi close lowerBB upperBB acc atr = some cand →
      cand.confidence =
        jsRound (min 100 (60 + min 35 (max 0 (10 * |acc| / (if atr = 0 then 1 else |atr|))))) := by
  intro rsi close lowerBB upperBB acc atr cand h
  unfold analyzeCore at h
  rcases Option.map_eq_some'.mp h with ⟨s, -, rfl⟩
  show jsRound _ = jsRound _
  congr 1
  simp only [jsAbs_eq_abs, abs_eq_zero]
  split_ifs with h0
  · ring_nf
  · ring_nf

/-- Witness for C7 (amended) at the spec's concrete LONG scenario. -/
theorem analyzeCore_confidence_w :
    (62 : ℤ) =
      jsRound (min 100 (60 + min 35 (max 0 (10 * |(3/10 : ℚ)| /
        (if (2 : ℚ) = 0 then 1 else |(2 : ℚ)|))))) := by
  have h := analyzeCore_confidence 25 95 98 105 (3/10) 2 ⟨Side.LONG, 95, 92, 101, 2, 62⟩
    (by norm_num [analyzeCore, entrySide, buildCandidate, jsRound, jsAbs, min_def, max_def])
  exact h

/-- C10: every candidate returned by `analyzeSymbol` carries an integer
confidence between 60 and 95 inclusive, so the orchestrator's filter
`confidence >= 60` accepts every generated candidate. -/
theorem analyzeCore_confidence_bounds :
    ∀ rsi close lowerBB upperBB acc atr : ℚ, ∀ cand,
      analyzeCore rsi close lowerBB upperBB acc atr = some cand →
      60 ≤ cand.confidence ∧ cand.confidence ≤ 95 ∧
        confidenceFilter cand.confidence = true := by
  intro rsi close lowerBB upperBB acc atr cand h
  unfold analyzeCore at h
  rcases Option.map_eq_some'.mp h with ⟨s, -, rfl⟩
  have hconf : (buildCandidate s close atr acc).confidence =
      jsRound (min 100 (60 + min 35 (max 0 ((jsAbs acc /
        (if jsAbs atr = 0 then 1 else jsAbs atr)) * 10)))) := rfl
  set x : ℚ := (jsAbs acc / (if jsAbs atr = 0 then 1 else jsAbs atr)) * 10 with hx
  have hb0 : (0 : ℚ) ≤ min 35 (max 0 x) := le_min (by norm_num) (le_max_left 0 x)
  have hb35 : min 35 (max 0 x) ≤ 35 := min_le_left _ _
  have hq60 : (60 : ℚ) ≤ min 100 (60 + min 35 (max 0 x)) :=
    le_min (by norm_num) (by linarith)
  have hq95 : min 100 (60 + min 35 (max 0 x)) ≤ 95 :=
    le_trans (min_le_right _ _) (by linarith)
  have h60 : (60 : ℤ) ≤ (buildCandidate s close atr acc).confidence := by
    rw [hconf]
    exact Int.le_floor.mpr (by push_cast; linarith)
  have h95 : (buildCandidate s close atr acc).confidence ≤ 95 := by
    rw [hconf]
    have : ⌊min 100 (60 + min 35 (max 0 x)) + 1 / 2⌋ < 96 :=
      Int.floor_lt.mpr (by push_cast; linarith)
    unfold jsRound
    omega
  refine ⟨h60, h95, ?_⟩
  simp only [confidenceFilter, decide_eq_true_eq]
  exact h60

/-- Witness for C10 at the spec's concrete LONG scenario (confidence 62). -/
theorem analyzeCore_confidence_bounds_w :
    (60 : ℤ) ≤ 62 ∧ (62 : ℤ) ≤ 95 ∧ confidenceFilter 62 = true := by
  have h := analyzeCore_confidence_bounds 25 95 98 105 (3/10) 2 ⟨Side.LONG, 95, 92, 101, 2, 62⟩
    (by norm_num [analyzeCore, entrySide, buildCandidate, jsRound, jsAbs, min_def, max_def])
  exact h

theorem scanHitAux_none (side : Side) (sl tp : ℚ) :
    ∀ (n : ℕ) (candles : List Candle),
      (∀ c ∈ candles, ¬specTouched side sl tp c) →
      scanHitAux side sl tp n candles = none := by
  intro n candles
  induction candles generalizing n with
  | nil => intro _; cases side <;> rfl
  | cons c rest ih =>
    intro h
    have hc := h c (List.mem_cons_self c rest)
    have hrest : ∀ c' ∈ rest, ¬specTouched side sl tp c' :=
      fun c' hm => h c' (List.mem_cons_of_mem _ hm)
    cases side with
    | LONG =>
      have h1 : ¬tp ≤ c.high := fun hx => hc (Or.inl hx)
      have h2 : ¬c.low ≤ sl := fun hx => hc (Or.inr hx)
      simp only [scanHitAux]
      rw [if_neg (fun hcon => h1 hcon.1), if_neg (fun hcon => h2 hcon.1),
        if_neg (fun hcon => h1 hcon.1)]
      exact ih (n + 1) hrest
    | SHORT =>
      have h1 : ¬c.low ≤ tp := fun hx => hc (Or.inl hx)
      have h2 : ¬sl ≤ c.high := fun hx => hc (Or.inr hx)
      simp only [scanHitAux]
      rw [if_neg (fun hcon => h1 hcon.1), if_neg (fun hcon => h2 hcon.1),
        if_neg (fun hcon => h1 hcon.1)]
      exact ih (n + 1) hrest

theorem scanHitAux_first (side : Side) (sl tp : ℚ) :
    ∀ (pre : List Candle) (n : ℕ) (c : Candle) (post : List Candle),
      (∀ c' ∈ pre, ¬specTouched side sl tp c') → specTouched side sl tp c →
      scanHitAux side sl tp n (pre ++ c :: post)
        = some (specResolveAt side sl tp c, n + pre.length) := by
  intro pre
  induction pre with
  | nil =>
    intro n c post _ htouch
    cases side with
    | LONG =>
      by_cases hA : tp ≤ c.high <;> by_cases hB : c.low ≤ sl
      · by_cases hC : tp ≤ c.close <;>
          simp [scanHitAux, specResolveAt, hA, hB, hC]
      · simp [scanHitAux, specResolveAt, hA, hB]
      · simp [scanHitAux, specResolveAt, hA, hB]
      · have ht : tp ≤ c.high ∨ c.low ≤ sl := htouch
        rcases ht with h | h
        · exact absurd h hA
        · exact absurd h hB
    | SHORT =>
      by_cases hA : c.low ≤ tp <;> by_cases hB : sl ≤ c.high
      · by_cases hC : c.close ≤ tp <;>
          simp [scanHitAux, specResolveAt, hA, hB, hC]
      · simp [scanHitAux, specResolveAt, hA, hB]
      · simp [scanHitAux, specResolveAt, hA, hB]
      · have ht : c.low ≤ tp ∨ sl ≤ c.high := htouch
        rcases ht with h | h
        · exact absurd h hA
        · exact absurd h hB
  | cons c0 rest ih =>
    intro n c post hpre htouch
    have hc0 := hpre c0 (List.mem_cons_self _ _)
    have hrest : ∀ c' ∈ rest, ¬specTouched side sl tp c' :=
      fun c' hm => hpre c' (List.mem_cons_of_mem _ hm)
    have hstep := ih (n + 1) c post hrest htouch
    have hlen : n + 1 + rest.length = n + (c0 :: rest).length := by
      simp only [List.length_cons]
      omega
    cases side with
    | LONG =>
      have h1 : ¬tp ≤ c0.high := fun hx => hc0 (Or.inl hx)
      have h2 : ¬c0.low ≤ sl := fun hx => hc0 (Or.inr hx)
      rw [List.cons_append]
      simp only [scanHitAux]
      rw [if_neg (fun hcon => h1 hcon.1), if_neg (fun hcon => h2 hcon.1),
        if_neg (fun hcon => h1 hcon.1), hstep, hlen]
    | SHORT =>
      have h1 : ¬c0.low ≤ tp := fun hx => hc0 (Or.inl hx)
      have h2 : ¬sl ≤ c0.high := fun hx => hc0 (Or.inr hx)
      rw [List.cons_append]
      simp only [scanHitAux]
      rw [if_neg (fun hcon => h1 hcon.1), if_neg (fun hcon => h2 hcon.1),
        if_neg (fun hcon => h1 hcon.1), hstep, hlen]

/-- C3: `checkSignalHit` scans the fetched candles oldest first and resolves
at the first candle touching either bound, with exactly-one-touch resolving
that bound and a same-candle double touch tie-broken by the close; no touch
in the whole window yields `none` (status null).  Concretely, a LONG signal
with `sl=100, tp=110` and candle `{low:95, high:115, close:112}` resolves TP
and the same candle with `close:98` resolves SL. -/
theorem checkSignalHit_resolution :
    (∀ (side : Side) (sl tp : ℚ) (candles : List Candle),
        (∀ c ∈ candles, ¬specTouched side sl tp c) →
        checkSignalHit side sl tp candles = none) ∧
    (∀ (side : Side) (sl tp : ℚ) (pre : List Candle) (c : Candle) (post : List Candle),
        (∀ c' ∈ pre, ¬specTouched side sl tp c') → specTouched side sl tp c →
        checkSignalHit side sl tp (pre ++ c :: post)
          = some (specResolveAt side sl tp c, pre.length)) ∧
    checkSignalHit Side.LONG 100 110 [⟨0, 0, 115, 95, 112, 0⟩] = some (Hit.TP, 0) ∧
    checkSignalHit Side.LONG 100 110 [⟨0, 0, 115, 95, 98, 0⟩] = some (Hit.SL, 0) := by
  refine ⟨fun side sl tp candles h => scanHitAux_none side sl tp 0 candles h,
          fun side sl tp pre c post hpre hc => by
            have := scanHitAux_first side sl tp pre 0 c post hpre hc
            simpa [checkSignalHit] using this,
          ?_, ?_⟩
  · norm_num [checkSignalHit, scanHitAux]
  · norm_num [checkSignalHit, scanHitAux]

/-- Witness for C3: a LONG window whose first candle touches nothing and whose
second candle double-touches (resolved at index 1), and a SHORT window that
never touches either bound (unresolved). -/
theorem checkSignalHit_resolution_w :
    checkSignalHit Side.LONG 100 110 [⟨0, 0, 105, 101, 103, 0⟩, ⟨1, 0, 115, 95, 112, 0⟩]
      = some (specResolveAt Side.LONG 100 110 ⟨1, 0, 115, 95, 112, 0⟩, 1) ∧
    checkSignalHit Side.SHORT 100 90 [⟨0, 0, 95, 92, 93, 0⟩] = none := by
  constructor
  · exact checkSignalHit_resolution.2.1 Side.LONG 100 110 [⟨0, 0, 105, 101, 103, 0⟩]
      ⟨1, 0, 115, 95, 112, 0⟩ []
      (by
        intro c' hm
        rw [List.mem_singleton] at hm
        subst hm
        norm_num [specTouched])
      (by
        unfold specTouched
        norm_num)
  · exact checkSignalHit_resolution.1 Side.SHORT 100 90 [⟨0, 0, 95, 92, 93, 0⟩]
      (by
        intro c' hm
        rw [List.mem_singleton] at hm
        subst hm
        norm_num [specTouched])

/-- Counterexample to C4 as stated: a tick of an OPEN signal whose candle
check comes back empty-handed (which is how a failed fetch surfaces) *does*
advance `monitorChecks` — from 0 to 1 here, with the 48-hour/60-second
ceiling `maxChecks = 2880` — because the increment happens before the fetch
result is inspected. -/
theorem monitorTick_advances_cex :
    (monitorTick 2880 none ⟨SigStatus.OPEN, 0, []⟩).monitorChecks = 1 ∧ (1 : ℕ) ≠ 0 := by
  constructor
  · rfl
  · norm_num

/-- C4 (amended): a tick of an OPEN signal in which the candle check yields
nothing (fetch failure or no touch) logs the check and continues: it never
resolves the signal to TP or SL, increments `monitorChecks` by one, appends
the observation, and leaves the signal OPEN — unless the incremented count
reaches the expiry ceiling, in which case the signal expires; the next tick
proceeds independently from the updated state. -/
theorem monitorTick_failed_tick :
    ∀ (maxChecks : ℕ) (s : MonSignal), s.status = SigStatus.OPEN →
      (monitorTick maxChecks none s).monitorChecks = s.monitorChecks + 1 ∧
      (monitorTick maxChecks none s).status ≠ SigStatus.TP ∧
      (monitorTick maxChecks none s).status ≠ SigStatus.SL ∧
      (s.monitorChecks + 1 < maxChecks → (monitorTick maxChecks none s).status = SigStatus.OPEN) ∧
      (maxChecks ≤ s.monitorChecks + 1 → (monitorTick maxChecks none s).status = SigStatus.EXPIRED) ∧
      (monitorTick maxChecks none s).monitorHistory = s.monitorHistory ++ [none] := by
  intro maxChecks s hOpen
  by_cases hmax : maxChecks ≤ s.monitorChecks + 1 <;>
    simp [monitorTick, hOpen, hmax]

/-- Witness for C4 (amended): a fresh OPEN signal under the 48-hour ceiling. -/
theorem monitorTick_failed_tick_w :
    (monitorTick 2880 none ⟨SigStatus.OPEN, 0, []⟩).monitorChecks = 0 + 1 ∧
    (monitorTick 2880 none ⟨SigStatus.OPEN, 0, []⟩).status = SigStatus.OPEN := by
  have h := monitorTick_failed_tick 2880 ⟨SigStatus.OPEN, 0, []⟩ rfl
  exact ⟨h.1, h.2.2.2.1 (by norm_num)⟩

/-- C9: `isDuplicateSignal(symbol, side)` is true iff some active signal
matches symbol and side, has status OPEN or PENDING, and has age
`now - createdAt` at most the dedupe window; a second identical candidate
`windowMinutes - 1` minutes after the first is rejected and one
`windowMinutes + 1` minutes after is accepted. -/
theorem isDuplicateSignal_spec :
    (∀ (activeSignals : List ActiveSignal) (now : ℤ) (symbol : String)
        (side : Side) (windowMinutes : ℤ),
      isDuplicateSignal activeSignals now symbol side windowMinutes = true ↔
        ∃ s ∈ activeSignals, s.symbol = symbol ∧ s.side = side ∧
          (s.status = SigStatus.OPEN ∨ s.status = SigStatus.PENDING) ∧
          now - s.createdAt ≤ windowMinutes * 60 * 1000) ∧
    (∀ (symbol : String) (side : Side) (t0 windowMinutes : ℤ),
      isDuplicateSignal [⟨symbol, side, t0, SigStatus.OPEN⟩]
        (t0 + (windowMinutes - 1) * 60 * 1000) symbol side windowMinutes = true) ∧
    (∀ (symbol : String) (side : Side) (t0 windowMinutes : ℤ),
      isDuplicateSignal [⟨symbol, side, t0, SigStatus.OPEN⟩]
        (t0 + (windowMinutes + 1) * 60 * 1000) symbol side windowMinutes = false) := by
  refine ⟨fun activeSignals now symbol side windowMinutes => ?_, ?_, ?_⟩
  · simp only [isDuplicateSignal, List.any_eq_true, Bool.and_eq_true, Bool.or_eq_true,
      beq_iff_eq, decide_eq_true_eq]
    constructor
    · rintro ⟨s, hs, ⟨⟨⟨hsym, hside⟩, hage⟩, hstat⟩⟩
      exact ⟨s, hs, hsym, hside, hstat, hage⟩
    · rintro ⟨s, hs, hsym, hside, hstat, hage⟩
      exact ⟨s, hs, ⟨⟨⟨hsym, hside⟩, hage⟩, hstat⟩⟩
  · intro symbol side t0 windowMinutes
    simp only [isDuplicateSignal, List.any_eq_true, List.mem_singleton, Bool.and_eq_true,
      Bool.or_eq_true, beq_iff_eq, decide_eq_true_eq]
    refine ⟨⟨symbol, side, t0, SigStatus.OPEN⟩, rfl, ⟨⟨rfl, rfl⟩, ?_⟩, Or.inl rfl⟩
    show t0 + (windowMinutes - 1) * 60 * 1000 - t0 ≤ windowMinutes * 60 * 1000
    omega
  · intro symbol side t0 windowMinutes
    simp only [isDuplicateSignal, List.any_eq_false, List.mem_singleton, Bool.and_eq_true,
      Bool.or_eq_true, beq_iff_eq, decide_eq_true_eq]
    intro s hs
    subst hs
    intro hcon
    rcases hcon with ⟨⟨⟨-, -⟩, hage⟩, -⟩
    have hage' : t0 + (windowMinutes + 1) * 60 * 1000 - t0 ≤ windowMinutes * 60 * 1000 := hage
    omega

theorem range_map_get {α : Type} (n i : ℕ) (f : ℕ → α) :
    ((List.range n).map f)[i]? = if i < n then some (f i) else none := by
  rcases lt_or_le i n with h | h
  · rw [List.getElem?_map, List.getElem?_range h, Option.map_some', if_pos h]
  · rw [List.getElem?_map, List.getElem?_eq_none_iff.mpr (by simpa using h),
      Option.map_none', if_neg (not_lt.mpr h)]

theorem priceChange_length (closes : List ℚ) :
    (priceChange closes).length = closes.length := by
  simp [priceChange]

theorem vArr_length (closes : List ℚ) : (vArr closes).length = closes.length := by
  simp [vArr, sma, priceChange]

theorem vArr_defined_iff (closes : List ℚ) (i : ℕ) :
    (∃ q, (vArr closes)[i]? = some (some q)) ↔ 2 ≤ i ∧ i < closes.length := by
  unfold vArr sma
  rw [priceChange_length, range_map_get]
  rcases lt_or_le i closes.length with h | h
  · rw [if_pos h]
    by_cases h2 : 3 - 1 ≤ i
    · simp only [if_pos h2, Option.some.injEq]
      constructor
      · intro _; exact ⟨h2, h⟩
      · intro _; exact ⟨_, rfl⟩
    · rw [if_neg h2]
      simp only [Option.some.injEq]
      constructor
      · rintro ⟨q, hq⟩; cases hq
      · rintro ⟨hge, -⟩; omega
  · rw [if_neg (not_lt.mpr h)]
    constructor
    · rintro ⟨q, hq⟩; cases hq
    · rintro ⟨-, hlt⟩; omega

theorem aArr_defined_iff (v : List (Option ℚ)) (i : ℕ) :
    (∃ q, (aArr v)[i]? = some (some q)) ↔
      1 ≤ i ∧ i < v.length ∧ (∃ a, v[i - 1]? = some (some a)) ∧
        (∃ b, v[i]? = some (some b)) := by
  unfold aArr
  rw [range_map_get]
  rcases lt_or_le i v.length with h | h
  · rw [if_pos h]
    by_cases h0 : i = 0
    · subst h0
      simp
    · rw [if_neg h0]
      cases h1 : v[i - 1]? with
      | none => simp [h1, Nat.one_le_iff_ne_zero, h0, h]
      | some oa =>
        cases h2 : v[i]? with
        | none => cases oa <;> simp [h1, h2, Nat.one_le_iff_ne_zero, h0, h]
        | some ob => cases oa <;> cases ob <;>
            simp [h1, h2, Nat.one_le_iff_ne_zero, h0, h]
  · rw [if_neg (not_lt.mpr h)]
    constructor
    · rintro ⟨q, hq⟩; cases hq
    · rintro ⟨-, hlt, -, -⟩; omega

/-- Counterexample to C5 as stated: with the 4-candle close series
`[1, 2, 4, 8]`, the velocity at index 2 — where only 3 < window+1 = 4
candles of history exist — is already the *defined* number
`(0 + 1 + 2) / 3 = 1`, computed over the numeric placeholder
`priceChange[0] = 0`, where the claim requires the undefined sentinel. -/
theorem velocity_defined_cex :
    (vArr [1, 2, 4, 8])[2]? = some (some 1) ∧
    (some (some (1 : ℚ)) : Option (Option ℚ)) ≠ some none := by
  constructor
  · norm_num [vArr, sma, priceChange, List.range_succ]
  · simp

/-- C5 (amended): the velocity array value at index `i` is defined iff
`i ≥ window - 1 = 2` (and `i` is in range) — one index earlier than the
claimed `window + 1` candles of history, because the first price change is
the numeric placeholder `0` and enters the window average; acceleration at
index `i` is defined iff `i ≥ 1` and both adjacent velocity values are
defined, which over the velocity array means exactly `3 ≤ i < length`. -/
theorem velocity_acceleration_defined :
    (∀ (closes : List ℚ) (i : ℕ),
      (∃ q, (vArr closes)[i]? = some (some q)) ↔ 2 ≤ i ∧ i < closes.length) ∧
    (∀ (v : List (Option ℚ)) (i : ℕ),
      (∃ q, (aArr v)[i]? = some (some q)) ↔
        1 ≤ i ∧ i < v.length ∧ (∃ a, v[i - 1]? = some (some a)) ∧
          (∃ b, v[i]? = some (some b))) ∧
    (∀ (closes : List ℚ) (i : ℕ),
      (∃ q, (aArr (vArr closes))[i]? = some (some q)) ↔ 3 ≤ i ∧ i < closes.length) := by
  refine ⟨vArr_defined_iff, aArr_defined_iff, fun closes i => ?_⟩
  rw [aArr_defined_iff, vArr_length, vArr_defined_iff, vArr_defined_iff]
  omega

theorem jsAbs_nonneg (q : ℚ) : 0 ≤ jsAbs q := by
  rw [jsAbs_eq_abs]
  exact abs_nonneg q

theorem avgsAt_nonneg (ds : List ℚ) (length : ℕ) :
    ∀ k : ℕ, 0 ≤ (avgsAt ds length k).1 ∧ 0 ≤ (avgsAt ds length k).2 := by
  intro k
  induction k with
  | zero =>
    constructor <;>
    · apply div_nonneg _ (Nat.cast_nonneg length)
      apply List.sum_nonneg
      intro x hx
      simp only [List.mem_map] at hx
      rcases hx with ⟨d, -, rfl⟩
      split_ifs with hd
      · linarith
      · first
          | linarith
          | exact jsAbs_nonneg d
  | succ k ih =>
    rcases Nat.eq_zero_or_pos length with h0 | hpos
    · subst h0
      simp [avgsAt]
    · have h1 : (0 : ℚ) ≤ (length : ℚ) - 1 := by
        have : (1 : ℚ) ≤ (length : ℚ) := by exact_mod_cast hpos
        linarith
      have hgain : (0 : ℚ) ≤ if 0 < ds.getD (length + k) 0 then ds.getD (length + k) 0 else 0 := by
        split_ifs with hd
        · linarith
        · exact le_refl 0
      have hloss : (0 : ℚ) ≤ if ds.getD (length + k) 0 < 0 then jsAbs (ds.getD (length + k) 0) else 0 := by
        split_ifs with hd
        · exact jsAbs_nonneg _
        · exact le_refl 0
      constructor
      · apply div_nonneg _ (Nat.cast_nonneg length)
        exact add_nonneg (mul_nonneg ih.1 h1) hgain
      · apply div_nonneg _ (Nat.cast_nonneg length)
        exact add_nonneg (mul_nonneg ih.2 h1) hloss

theorem rsiVal_mem (g l : ℚ) (hg : 0 ≤ g) (hl : 0 ≤ l) :
    0 ≤ rsiVal g l ∧ rsiVal g l < 100 := by
  have hrs : 0 ≤ rsFrom g l := by
    unfold rsFrom
    split_ifs with h
    · norm_num
    · exact div_nonneg hg hl
  have h1 : (0 : ℚ) < 1 + rsFrom g l := by linarith
  have h2 : 100 / (1 + rsFrom g l) ≤ 100 := by
    rw [div_le_iff₀ h1]
    nlinarith
  have h3 : 0 < 100 / (1 + rsFrom g l) := by positivity
  unfold rsiVal
  constructor <;> linarith

theorem rsiVal_sat (g : ℚ) : rsiVal g 0 = 10000 / 101 := by
  unfold rsiVal rsFrom
  norm_num

/-- C6 (amended): every defined RSI value lies in `[0, 100]` — in fact in
`[0, 100)` — and whenever the smoothed average loss at that index is zero,
RS is set to the finite constant `100` and the RSI value equals
`100 - 100/101 = 10000/101 ≈ 99.0099`, not `100`. -/
theorem rsi_bounds_saturation :
    ∀ (closes : List ℚ) (length i : ℕ) (r : ℚ),
      (rsiFromCloses closes length)[i]? = some (some r) →
      (0 ≤ r ∧ r < 100) ∧
      ((avgsAt (deltas closes) length (i - length)).2 = 0 → r = 10000 / 101) := by
  intro closes length i r h
  unfold rsiFromCloses at h
  split_ifs at h with hshort
  · rw [List.getElem?_replicate] at h
    split_ifs at h
    simp_all
  · rw [range_map_get] at h
    split_ifs at h with hrange hlow
    · simp at h
    · simp only [Option.some.injEq] at h
      have hnn := avgsAt_nonneg (deltas closes) length (i - length)
      constructor
      · rw [← h]
        exact rsiVal_mem _ _ hnn.1 hnn.2
      · intro hl0
        rw [← h, hl0]
        exact rsiVal_sat _

theorem deltas_risingCloses :
    deltas risingCloses = [1, 1, 1, 1, 1, 1, 1, 1, 1, 1, 1, 1, 1, 1] := by
  norm_num [deltas, risingCloses]

theorem avgsAt_rising_seed : avgsAt (deltas risingCloses) 14 0 = (1, 0) := by
  rw [deltas_risingCloses]
  norm_num [avgsAt, jsAbs]

theorem rsi_rising_value :
    (rsiFromCloses risingCloses 14)[14]? = some (some (10000 / 101)) := by
  unfold rsiFromCloses
  rw [if_neg (by norm_num [risingCloses]), range_map_get,
    if_pos (by norm_num [risingCloses]), if_neg (by norm_num)]
  norm_num [avgsAt_rising_seed, rsiVal, rsFrom]

/-- Counterexample to C6 as stated: on strictly increasing closes the
smoothed average loss at the first defined index is zero, yet the RSI value
is `100 - 100/101 = 10000/101 ≈ 99.0099`, not exactly `100`: the code models
"maximal RS" as the finite constant `100`, so RSI does not saturate at 100. -/
theorem rsi_saturation_cex :
    (avgsAt (deltas risingCloses) 14 0).2 = 0 ∧
    (rsiFromCloses risingCloses 14)[14]? = some (some (10000 / 101)) ∧
    (10000 / 101 : ℚ) ≠ 100 := by
  refine ⟨?_, rsi_rising_value, by norm_num⟩
  rw [avgsAt_rising_seed]

/-- Witness for C6 (amended) at the rising-closes fixture, whose RSI value at
index 14 is `10000/101` with zero average loss. -/
theorem rsi_bounds_saturation_w :
    ((0 : ℚ) ≤ 10000 / 101 ∧ (10000 / 101 : ℚ) < 100) ∧
    (10000 / 101 : ℚ) = 10000 / 101 := by
  have h := rsi_bounds_saturation risingCloses 14 14 (10000 / 101) rsi_rising_value
  refine ⟨h.1, h.2 ?_⟩
  rw [show (14 : ℕ) - 14 = 0 from rfl, avgsAt_rising_seed]

/-- Counterexample to C8 as stated: a Binance-style response delivered
newest-first (one of the "native orderings" the claim quantifies over)
passes through the Binance branch of `loadCandles` unsorted — the output
open times are `[2000, 1000]`.  (The claim's `length ≤ limit` clause fails
the same way: no branch truncates, so a response longer than `limit` is
returned whole.) -/
theorem loadCandles_sorted_cex :
    ¬ List.Sorted (fun a b : Candle => a.t ≤ b.t)
      (normalizeBinance [⟨2000, 0, 0, 0, 0, 0⟩, ⟨1000, 0, 0, 0, 0, 0⟩]) := by
  intro hs
  norm_num [normalizeBinance, List.sorted_cons] at hs

/-- C8 (amended): the Bybit branch re-sorts into ascending open-time order
whatever the native ordering (array- and object-encoded records alike) and
returns a permutation of the mapped records (in particular of the same
length); the Binance branch preserves the response's native row order and
length verbatim, so its output is ascending, or within `limit`, only when
the provider's response already is. -/
theorem loadCandles_normalization :
    (∀ list : List BybitItem,
      List.Sorted (fun a b : Candle => a.t ≤ b.t) (normalizeBybit list) ∧
      (normalizeBybit list).Perm (list.map bybitToCandle)) ∧
    (∀ raw : List BinanceRow,
      (normalizeBinance raw).map Candle.t = raw.map BinanceRow.t ∧
      (normalizeBinance raw).length = raw.length) := by
  refine ⟨fun list => ⟨?_, ?_⟩, fun raw => ⟨?_, ?_⟩⟩
  · exact List.sorted_insertionSort _ _
  · exact List.perm_insertionSort _ _
  · simp [normalizeBinance]
  · simp [normalizeBinance]

end BotTrading
